import Mathlib

/-!
Verification development for the GDD planner application
(`farmer_gdd_app.py`).

The embedding models the three core components:

* `daily_gdd` — the pure heat-unit function (source lines 87–89);
* `simulate_gdd` — the block-fetching accumulation engine
  (source lines 91–143), with the remote service abstracted as a
  fetch oracle `Int → Int → Option (List Obs)` (`none` models any
  exception raised by `get_power_daily_tmax_tmin`);
* the retry loop and response parsing of `get_power_daily_tmax_tmin`
  (source lines 32–82), with the transport abstracted as an oracle
  from attempt number to attempt result;
* the threshold-input handling of `main` (source lines 162–174).

Numeric values (temperatures, GDD totals, thresholds) are embedded as
rationals; calendar dates as integers (a day count), with
`timedelta(days = n)` becoming integer addition.  A Python `dict` of
thresholds is embedded as an association list in insertion order.

The engine is instrumented: besides the pair `(history_rows,
stage_dates)` that the Python function returns, the model records the
list of issued fetch requests and whether the run was terminated by a
fetch exception.  `pythonReturn` projects out exactly what the Python
caller receives.
-/

deriving instance DecidableEq for Except

/-- One parsed daily observation (a row of the block `DataFrame`). -/
structure Obs where
  date : Int
  tmax : ℚ
  tmin : ℚ
deriving Repr, DecidableEq

/-- One entry of `history_rows` (source lines 129–135). -/
structure GDDRecord where
  date : Int
  tmax : ℚ
  tmin : ℚ
  gdd_day : ℚ
  gdd_cum : ℚ
deriving Repr, DecidableEq

/-- The `stage_dates` dictionary: threshold ↦ first-crossing date or
`none`.  Duplicate thresholds in `targets` give duplicate entries that
are always updated identically, matching the single dict slot. -/
abbrev StageMap := List (ℚ × Option Int)

/-- The engine's mutable state while processing one block. -/
structure BlockState where
  cum : ℚ
  rows : List GDDRecord
  stage_dates : StageMap
deriving Repr, DecidableEq

/-- Instrumented outcome of a run of `simulate_gdd`: the returned data
plus the trace of issued fetch requests and whether the run ended in
the `except` handler of source lines 114–117. -/
structure SimOutcome where
  rows : List GDDRecord
  stage_dates : StageMap
  fetches : List (Int × Int)
  errored : Bool
deriving Repr, DecidableEq

/-- Source lines 87–89: `tmean = (tmax + tmin) / 2.0;
return max(tmean - tbase, 0.0)`. -/
def daily_gdd (tmax tmin tbase : ℚ) : ℚ :=
  max ((tmax + tmin) / 2 - tbase) 0

/-- Source lines 137–139: for every threshold whose slot is still
`None` and whose value is at most the new cumulative GDD, store the
current date. -/
def updateStages (cum : ℚ) (d : Int) (stages : StageMap) : StageMap :=
  stages.map fun p => if p.2 = none ∧ p.1 ≤ cum then (p.1, some d) else p

/-- Source lines 119–139: the `for _, row in df_block.iterrows()` loop.
Each iteration first checks `cum_gdd >= highest_target` and breaks,
otherwise accumulates one day and updates the stage dictionary. -/
def processBlock (tbase highest : ℚ) : List Obs → BlockState → BlockState
  | [], s => s
  | o :: rest, s =>
    if highest ≤ s.cum then s
    else
      let g := daily_gdd o.tmax o.tmin tbase
      processBlock tbase highest rest
        ⟨s.cum + g, s.rows ++ [⟨o.date, o.tmax, o.tmin, g, s.cum + g⟩],
          updateStages (s.cum + g) o.date s.stage_dates⟩

/-- Source lines 108–141: the `while cum_gdd < highest_target and
current_start <= end_date_limit` loop.  `fetch` abstracts
`get_power_daily_tmax_tmin`, with `none` standing for a raised
exception (caught at line 114, which breaks out of the loop).  The
`fuel` argument bounds the number of iterations; `simulate_gdd`
supplies enough fuel for every terminating configuration, and the
fuel-exhaustion branch is never reached for `blockDays ≥ 1`. -/
def simLoop (fetch : Int → Int → Option (List Obs)) (tbase highest : ℚ)
    (endLimit blockDays : Int) (fuel : Nat) (cum : ℚ) (cur : Int)
    (rows : List GDDRecord) (stages : StageMap) (fs : List (Int × Int)) :
    SimOutcome :=
  if cum < highest ∧ cur ≤ endLimit then
    match fuel with
    | 0 => ⟨rows, stages, fs, false⟩
    | fuel' + 1 =>
      let curEnd := min (cur + (blockDays - 1)) endLimit
      match fetch cur curEnd with
      | none => ⟨rows, stages, fs ++ [(cur, curEnd)], true⟩
      | some obs =>
        let s := processBlock tbase highest obs ⟨cum, rows, stages⟩
        simLoop fetch tbase highest endLimit blockDays fuel'
          s.cum (curEnd + 1) s.rows s.stage_dates (fs ++ [(cur, curEnd)])
  else ⟨rows, stages, fs, false⟩

/-- Source lines 91–143.  `max(targets)` on an empty tuple raises
`ValueError` (modelled by `Except.error ()`), at line 106, before the
fetch loop is entered.  Otherwise the loop runs from the configured
start date with cumulative GDD `0.0` and an all-`None` stage map. -/
def simulate_gdd (fetch : Int → Int → Option (List Obs)) (start_date : Int)
    (tbase : ℚ) (targets : List ℚ) (max_days blockDays : Int) :
    Except Unit SimOutcome :=
  match targets.max? with
  | none => Except.error ()
  | some highest =>
    Except.ok (simLoop fetch tbase highest (start_date + max_days) blockDays
      (max_days.toNat + 1) 0 start_date []
      (targets.map fun t => (t, none)) [])

/-- What the Python caller of `simulate_gdd` actually receives (source
line 143): the history rows and the stage dictionary, nothing else. -/
def pythonReturn (o : SimOutcome) : List GDDRecord × StageMap :=
  (o.rows, o.stage_dates)

/-- The date of the first record (in processing order) whose
cumulative GDD reached or exceeded `thr`. -/
def firstCross (rows : List GDDRecord) (thr : ℚ) : Option Int :=
  (rows.find? fun r => decide (thr ≤ r.gdd_cum)).map GDDRecord.date

/-- The per-run invariant tying the stage dictionary to the produced
records: every entry holds exactly the date of the first record whose
cumulative GDD reached its threshold (or `none` if none did). -/
def stagesInv (rows : List GDDRecord) (stages : StageMap) : Prop :=
  ∀ p ∈ stages, p.2 = firstCross rows p.1

/-- The raw JSON payload of a successful NASA POWER response, already
projected to `data["properties"]["parameter"]`: the two per-variable
dictionaries keyed by the 8-digit date string (modelled as the
corresponding day number). -/
structure PowerResponse where
  tmaxD : List (Nat × ℚ)
  tminD : List (Nat × ℚ)
deriving Repr, DecidableEq

/-- Outcome of one `requests.get` attempt inside
`get_power_daily_tmax_tmin`: a parsed body, an `HTTPError` with its
status code, or a network-level `RequestException`. -/
inductive AttemptResult where
  | ok (resp : PowerResponse)
  | httpError (status : Nat)
  | netError
deriving Repr, DecidableEq

/-- The exception with which `get_power_daily_tmax_tmin` can fail:
a re-raised `HTTPError`, a re-raised `RequestException`, the
`NameError` on `data` when the loop makes no attempt at all
(`max_retries = 0`), or the `KeyError` of line 79. -/
inductive FetchError where
  | http (status : Nat)
  | net
  | noData
  | keyError
deriving Repr, DecidableEq

/-- A transient condition in the sense of the retry loop: a 5xx status
or any network-level failure. -/
def transient : AttemptResult → Prop
  | .ok _ => False
  | .httpError s => 500 ≤ s ∧ s < 600
  | .netError => True

instance : DecidablePred transient := by
  intro a
  cases a <;> simp only [transient] <;> infer_instance

/-- The exception a transient attempt would re-raise on exhaustion. -/
def transientErr : AttemptResult → Option FetchError
  | .ok _ => none
  | .httpError s => some (.http s)
  | .netError => some .net

/-- Source lines 50–67: the `for attempt in range(1, max_retries + 1)`
loop.  `oracle` gives the outcome of each attempt; the result pairs
the final outcome with the list of attempt numbers actually made.
`rem` counts the remaining loop iterations (`max_retries + 1 -
attempt`); when it hits `0` the loop has exited without ever binding
`data`, which makes line 69 raise `NameError` (`FetchError.noData`). -/
def attemptLoopAux (oracle : Nat → AttemptResult) (maxRetries : Nat) :
    Nat → Nat → Except FetchError PowerResponse × List Nat
  | _, 0 => (.error .noData, [])
  | attempt, rem + 1 =>
    match oracle attempt with
    | .ok resp => (.ok resp, [attempt])
    | .httpError s =>
      if 500 ≤ s ∧ s < 600 ∧ attempt < maxRetries then
        let r := attemptLoopAux oracle maxRetries (attempt + 1) rem
        (r.1, attempt :: r.2)
      else (.error (.http s), [attempt])
    | .netError =>
      if attempt < maxRetries then
        let r := attemptLoopAux oracle maxRetries (attempt + 1) rem
        (r.1, attempt :: r.2)
      else (.error .net, [attempt])

/-- The retry loop entered at attempt `1` with `maxRetries` iterations
available, as in the source's `range(1, max_retries + 1)`. -/
def fetchWithRetry (oracle : Nat → AttemptResult) (maxRetries : Nat) :
    Except FetchError PowerResponse × List Nat :=
  attemptLoopAux oracle maxRetries 1 maxRetries

/-- The body of the `for d_str in sorted(tmax_dict.keys())` loop
(source lines 74–80): build one row per key, reading
`tmax_dict[d_str]` and `tmin_dict[d_str]`; a key absent from
`tmin_dict` raises `KeyError` (line 79). -/
def buildRows (tmaxD tminD : List (Nat × ℚ)) :
    List Nat → Except FetchError (List Obs)
  | [] => .ok []
  | k :: ks =>
    match tmaxD.lookup k, tminD.lookup k with
    | some mx, some mn =>
      match buildRows tmaxD tminD ks with
      | .ok rest => .ok (⟨(k : Int), mx, mn⟩ :: rest)
      | .error e => .error e
    | _, _ => .error .keyError

/-- Source lines 69–82: iterate over `sorted(tmax_dict.keys())`
(Python's stable ascending sort, modelled by `insertionSort`) and
build the rows. -/
def parsePower (resp : PowerResponse) : Except FetchError (List Obs) :=
  buildRows resp.tmaxD resp.tminD
    ((resp.tmaxD.map Prod.fst).insertionSort (· ≤ ·))

/-- Source lines 32–82 end to end: retry the request, then parse the
successful body. -/
def get_power_daily_tmax_tmin (oracle : Nat → AttemptResult)
    (maxRetries : Nat) : Except FetchError (List Obs) :=
  match (fetchWithRetry oracle maxRetries).1 with
  | .error e => .error e
  | .ok resp => parsePower resp

/-- Source line 162: the default GDD targets. -/
def targetsDefault : List Int := [100, 300, 500, 1000]

/-- Python `str.strip()` on a character list. -/
def pyStrip (cs : List Char) : List Char :=
  ((cs.dropWhile Char.isWhitespace).reverse.dropWhile Char.isWhitespace).reverse

/-- Python `str.split(",")` on a character list: split at every comma,
keeping empty pieces. -/
def pySplitComma (cs : List Char) : List (List Char) :=
  match cs with
  | [] => [[]]
  | c :: rest =>
    let r := pySplitComma rest
    if c = ',' then [] :: r
    else match r with
      | [] => [[c]]
      | piece :: more => (c :: piece) :: more

/-- Python `int(s)` on an already-stripped token: an optional sign
followed by at least one decimal digit. -/
def pyInt (cs : List Char) : Option Int :=
  let digits : List Char → Option Nat := fun ds =>
    if ds = [] then none
    else ds.foldlM (fun acc c =>
      if c.isDigit then some (10 * acc + (c.toNat - '0'.toNat)) else none) 0
  match cs with
  | '-' :: rest => (digits rest).map fun n => -(n : Int)
  | '+' :: rest => (digits rest).map fun n => (n : Int)
  | _ => (digits cs).map fun n => (n : Int)

/-- Source line 169:
`tuple(sorted({int(x.strip()) for x in targets_input.split(",") if x.strip()}))`.
`none` models the `ValueError` caught at line 170. -/
def parseTargetsInput (cs : List Char) : Option (List Int) :=
  let toks := ((pySplitComma cs).map pyStrip).filter (fun t => t ≠ [])
  (toks.mapM pyInt).map fun l => l.dedup.insertionSort (· ≤ ·)

/-- The outcome of the targets block of `main`: which targets the run
will use and whether the error message of line 171 was shown. -/
structure TargetsChoice where
  targets : List Int
  errorShown : Bool
deriving Repr, DecidableEq

/-- Source lines 163–174: with the customize box ticked, parse the
input; on `ValueError` show an error and fall back to the defaults. -/
def chooseTargets (customize : Bool) (input : List Char) : TargetsChoice :=
  if customize then
    match parseTargetsInput input with
    | some ts => ⟨ts, false⟩
    | none => ⟨targetsDefault, true⟩
  else ⟨targetsDefault, false⟩

/-- Source lines 176–203: once the Run button is pressed (and
coordinates are available), `main` always calls `simulate_gdd` with
whatever `chooseTargets` produced — also when the targets input
failed to parse. -/
def mainRunSim (fetch : Int → Int → Option (List Obs)) (start_date : Int)
    (tbase : ℚ) (customize : Bool) (input : List Char)
    (max_days blockDays : Int) : Except Unit SimOutcome :=
  simulate_gdd fetch start_date tbase
    ((chooseTargets customize input).targets.map fun n => (n : ℚ))
    max_days blockDays

/-! ## Helper lemmas about the engine loop -/

/-- Once the cumulative GDD has reached the highest target, the inner
per-day loop leaves the state untouched (the `break` of line 121
triggers before anything is read). -/
theorem processBlock_absorb (tbase highest : ℚ) (obs : List Obs)
    (s : BlockState) (h : highest ≤ s.cum) :
    processBlock tbase highest obs s = s := by
  cases obs with
  | nil => rfl
  | cons o rest => simp only [processBlock, if_pos h]

/-- Processing a concatenation of observation lists is processing them
in sequence: the broken state is absorbing, so the split is exact. -/
theorem processBlock_append (tbase highest : ℚ) (xs ys : List Obs)
    (s : BlockState) :
    processBlock tbase highest (xs ++ ys) s =
      processBlock tbase highest ys (processBlock tbase highest xs s) := by
  induction xs generalizing s with
  | nil => rfl
  | cons o rest ih =>
    by_cases h : highest ≤ s.cum
    · simp only [List.cons_append, processBlock, if_pos h,
        processBlock_absorb _ _ _ _ h]
    · simp only [List.cons_append, processBlock, if_neg h]
      exact ih _

/-- `updateStages` never changes which thresholds are present. -/
theorem updateStages_fst (cum : ℚ) (d : Int) (stages : StageMap) :
    (updateStages cum d stages).map Prod.fst = stages.map Prod.fst := by
  simp only [updateStages, List.map_map]
  exact List.map_congr_left fun p _ => by
    by_cases h : p.2 = none ∧ p.1 ≤ cum <;> simp [Function.comp, h]

theorem firstCross_append_of_some (rows : List GDDRecord) (r : GDDRecord)
    (thr : ℚ) (d : Int) (h : firstCross rows thr = some d) :
    firstCross (rows ++ [r]) thr = some d := by
  simp only [firstCross, List.find?_append]
  obtain ⟨x, hx, rfl⟩ : ∃ x, (rows.find? fun a => decide (thr ≤ a.gdd_cum))
      = some x ∧ x.date = d := by
    cases hfind : rows.find? fun a => decide (thr ≤ a.gdd_cum) with
    | none => rw [firstCross, hfind] at h; simp at h
    | some x =>
      rw [firstCross, hfind] at h
      exact ⟨x, rfl, by simpa using h⟩
  simp [hx]

theorem firstCross_append_of_none (rows : List GDDRecord) (r : GDDRecord)
    (thr : ℚ) (h : firstCross rows thr = none) :
    firstCross (rows ++ [r]) thr =
      if thr ≤ r.gdd_cum then some r.date else none := by
  have hfind : (rows.find? fun a => decide (thr ≤ a.gdd_cum)) = none := by
    rw [firstCross] at h
    cases hf : rows.find? fun a => decide (thr ≤ a.gdd_cum) with
    | none => rfl
    | some x => rw [hf] at h; simp at h
  simp only [firstCross, List.find?_append, hfind, Option.none_or]
  by_cases hle : thr ≤ r.gdd_cum <;> simp [List.find?, hle]

/-- One accumulated day preserves the first-crossing invariant: the
appended record carries the new cumulative total, and `updateStages`
is called with exactly that total and that date. -/
theorem stagesInv_step (rows : List GDDRecord) (stages : StageMap)
    (r : GDDRecord) (h : stagesInv rows stages) :
    stagesInv (rows ++ [r]) (updateStages r.gdd_cum r.date stages) := by
  intro p hp
  simp only [updateStages, List.mem_map] at hp
  obtain ⟨q, hq, rfl⟩ := hp
  have hq2 := h q hq
  by_cases hnone : q.2 = none
  · rw [hnone] at hq2
    have hfc := firstCross_append_of_none rows r q.1 hq2.symm
    by_cases hle : q.1 ≤ r.gdd_cum
    · rw [if_pos ⟨hnone, hle⟩]
      show some r.date = firstCross (rows ++ [r]) q.1
      rw [hfc, if_pos hle]
    · rw [if_neg (fun hand : q.2 = none ∧ q.1 ≤ r.gdd_cum => hle hand.2)]
      show q.2 = firstCross (rows ++ [r]) q.1
      rw [hnone, hfc, if_neg hle]
  · obtain ⟨v, hv⟩ := Option.ne_none_iff_exists'.mp hnone
    rw [hv] at hq2
    have hfc := firstCross_append_of_some rows r q.1 v hq2.symm
    rw [if_neg (fun hand : q.2 = none ∧ q.1 ≤ r.gdd_cum => hnone hand.1)]
    show q.2 = firstCross (rows ++ [r]) q.1
    rw [hv, hfc]

/-- The inner per-day loop preserves the first-crossing invariant. -/
theorem processBlock_stagesInv (tbase highest : ℚ) (obs : List Obs) :
    ∀ s : BlockState, stagesInv s.rows s.stage_dates →
      stagesInv (processBlock tbase highest obs s).rows
        (processBlock tbase highest obs s).stage_dates := by
  induction obs with
  | nil => intro s h; exact h
  | cons o rest ih =>
    intro s h
    by_cases hb : highest ≤ s.cum
    · simpa [processBlock, hb] using h
    · simp only [processBlock, if_neg hb]
      exact ih _ (stagesInv_step _ _ _ h)

theorem processBlock_stages_fst (tbase highest : ℚ) (obs : List Obs) :
    ∀ s : BlockState,
      (processBlock tbase highest obs s).stage_dates.map Prod.fst =
        s.stage_dates.map Prod.fst := by
  induction obs with
  | nil => intro s; rfl
  | cons o rest ih =>
    intro s
    by_cases hb : highest ≤ s.cum
    · simp [processBlock, hb]
    · simp only [processBlock, if_neg hb]
      rw [ih]
      exact updateStages_fst _ _ _

/-- The fetch loop preserves the first-crossing invariant. -/
theorem simLoop_stagesInv (fetch : Int → Int → Option (List Obs))
    (tbase highest : ℚ) (endLimit blockDays : Int) :
    ∀ (fuel : Nat) (cum : ℚ) (cur : Int) (rows : List GDDRecord)
      (stages : StageMap) (fs : List (Int × Int)), stagesInv rows stages →
      stagesInv
        (simLoop fetch tbase highest endLimit blockDays fuel
          cum cur rows stages fs).rows
        (simLoop fetch tbase highest endLimit blockDays fuel
          cum cur rows stages fs).stage_dates := by
  intro fuel
  induction fuel with
  | zero =>
    intro cum cur rows stages fs h
    rw [simLoop]
    by_cases hg : cum < highest ∧ cur ≤ endLimit <;> simp [hg] <;> exact h
  | succ fuel ih =>
    intro cum cur rows stages fs h
    rw [simLoop]
    by_cases hg : cum < highest ∧ cur ≤ endLimit
    · simp only [if_pos hg]
      cases hf : fetch cur (min (cur + (blockDays - 1)) endLimit) with
      | none => exact h
      | some obs => exact ih _ _ _ _ _ (processBlock_stagesInv _ _ _ _ h)
    · simp only [if_neg hg]
      exact h

theorem simLoop_stages_fst (fetch : Int → Int → Option (List Obs))
    (tbase highest : ℚ) (endLimit blockDays : Int) :
    ∀ (fuel : Nat) (cum : ℚ) (cur : Int) (rows : List GDDRecord)
      (stages : StageMap) (fs : List (Int × Int)),
      (simLoop fetch tbase highest endLimit blockDays fuel
        cum cur rows stages fs).stage_dates.map Prod.fst =
        stages.map Prod.fst := by
  intro fuel
  induction fuel with
  | zero =>
    intro cum cur rows stages fs
    rw [simLoop]
    by_cases hg : cum < highest ∧ cur ≤ endLimit <;> simp [hg]
  | succ fuel ih =>
    intro cum cur rows stages fs
    rw [simLoop]
    by_cases hg : cum < highest ∧ cur ≤ endLimit
    · simp only [if_pos hg]
      cases hf : fetch cur (min (cur + (blockDays - 1)) endLimit) with
      | none => rfl
      | some obs =>
        rw [ih]
        exact processBlock_stages_fst _ _ _ _
    · simp only [if_neg hg]

/-! ## Claim theorems -/

/-- C2: for all `tmax`, `tmin`, `tbase`, `daily_gdd` equals
`max(((tmax + tmin) / 2) − tbase, 0)`; it is always non-negative,
equals the mean-minus-base difference when that is non-negative, and
is `0` otherwise. -/
theorem daily_gdd_spec (tmax tmin tbase : ℚ) :
    daily_gdd tmax tmin tbase = max ((tmax + tmin) / 2 - tbase) 0
    ∧ 0 ≤ daily_gdd tmax tmin tbase
    ∧ (0 ≤ (tmax + tmin) / 2 - tbase →
        daily_gdd tmax tmin tbase = (tmax + tmin) / 2 - tbase)
    ∧ ((tmax + tmin) / 2 - tbase < 0 → daily_gdd tmax tmin tbase = 0) :=
  ⟨rfl, le_max_right _ _, fun h => max_eq_left h, fun h => max_eq_right h.le⟩

theorem daily_gdd_spec_witness :
    daily_gdd 30 20 10 = max ((30 + 20) / 2 - 10) 0
    ∧ 0 ≤ daily_gdd 30 20 10
    ∧ daily_gdd 30 20 10 = (30 + 20) / 2 - 10
    ∧ daily_gdd 5 5 10 = 0 := by
  have h := daily_gdd_spec 30 20 10
  have h' := daily_gdd_spec 5 5 10
  exact ⟨h.1, h.2.1, h.2.2.1 (by norm_num), h'.2.2.2 (by norm_num)⟩

/-- C10: with an empty targets collection, `max(targets)` at line 106
raises `ValueError` before the fetch loop is entered: for every fetch
oracle and configuration the engine fails with an error and no fetch
is ever issued (the result carries no fetch trace at all). -/
theorem simulate_gdd_empty_targets_error
    (fetch : Int → Int → Option (List Obs)) (start_date : Int) (tbase : ℚ)
    (max_days blockDays : Int) :
    simulate_gdd fetch start_date tbase [] max_days blockDays =
      Except.error () := rfl

/-- C4: (a) from any loop state whose cumulative GDD has reached the
highest target, the fetch loop exits at once without issuing a fetch
(the trace is unchanged); (b) within a block, once the prefix already
processed has pushed the cumulative GDD to the highest target, the
remaining observations of that block are not evaluated. -/
theorem simulate_gdd_stops_at_highest :
    (∀ (fetch : Int → Int → Option (List Obs)) (tbase highest : ℚ)
        (endLimit blockDays : Int) (fuel : Nat) (cum : ℚ) (cur : Int)
        (rows : List GDDRecord) (stages : StageMap) (fs : List (Int × Int)),
        highest ≤ cum →
        simLoop fetch tbase highest endLimit blockDays fuel cum cur rows stages fs =
          ⟨rows, stages, fs, false⟩)
    ∧ (∀ (tbase highest : ℚ) (xs ys : List Obs) (s : BlockState),
        highest ≤ (processBlock tbase highest xs s).cum →
        processBlock tbase highest (xs ++ ys) s =
          processBlock tbase highest xs s) := by
  constructor
  · intro fetch tbase highest endLimit blockDays fuel cum cur rows stages fs h
    rw [simLoop.eq_def, if_neg]
    rintro ⟨h1, -⟩
    exact absurd h (not_le.mpr h1)
  · intro tbase highest xs ys s h
    rw [processBlock_append, processBlock_absorb _ _ _ _ h]

theorem simulate_gdd_stops_at_highest_witness :
    simLoop (fun _ _ => some []) 10 100 50 30 5 150 0 [] [] [] =
      ⟨[], [], [], false⟩
    ∧ processBlock 10 100 ([⟨0, 150, 150⟩] ++ [⟨1, 40, 20⟩]) ⟨0, [], []⟩ =
        processBlock 10 100 [⟨0, 150, 150⟩] ⟨0, [], []⟩ :=
  ⟨simulate_gdd_stops_at_highest.1 _ 10 100 50 30 5 150 0 [] [] []
      (by norm_num),
   simulate_gdd_stops_at_highest.2 10 100 _ _ _
      (by norm_num [processBlock, daily_gdd, updateStages])⟩

/-- C8 counterexample: with `max_days = 0` the configured start date
equals the horizon end, yet the loop guard `current_start <=
end_date_limit` (line 108) still holds, so the engine fetches one
single-day block and processes it — the result is not the claimed
empty no-fetch result. -/
theorem simulate_gdd_horizon_eq_cex :
    simulate_gdd (fun s _ => some [⟨s, 30, 20⟩]) 0 10 [100] 0 30 =
      Except.ok ⟨[⟨0, 30, 20, 15, 15⟩], [(100, none)], [(0, 0)], false⟩
    ∧ (Except.ok ⟨[⟨0, 30, 20, 15, 15⟩], [(100, none)], [(0, 0)], false⟩ :
        Except Unit SimOutcome) ≠
      Except.ok ⟨[], [(100, none)], [], false⟩ := by
  constructor
  · norm_num [simulate_gdd, simLoop, processBlock, updateStages, daily_gdd,
      List.max?]
  · simp

/-- C8 amended: only when the start date strictly exceeds the horizon
end (`max_days < 0`) does the engine return an empty record sequence
and an all-unset stage map without issuing any fetch; at equality
(`max_days = 0`) one single-day block is still fetched and processed. -/
theorem simulate_gdd_negative_horizon_empty
    (fetch : Int → Int → Option (List Obs)) (start_date : Int) (tbase : ℚ)
    (targets : List ℚ) (max_days blockDays : Int)
    (hm : max_days < 0) (ht : targets ≠ []) :
    simulate_gdd fetch start_date tbase targets max_days blockDays =
      Except.ok ⟨[], targets.map (fun t => (t, none)), [], false⟩ := by
  obtain ⟨t, ts, rfl⟩ : ∃ t ts, targets = t :: ts := by
    cases targets with
    | nil => exact absurd rfl ht
    | cons t ts => exact ⟨t, ts, rfl⟩
  simp only [simulate_gdd, List.max?]
  rw [simLoop, if_neg]
  rintro ⟨-, h2⟩
  omega

theorem simulate_gdd_negative_horizon_empty_witness :
    simulate_gdd (fun _ _ => some []) 5 10 [100] (-1) 30 =
      Except.ok ⟨[], [(100, none)], [], false⟩ :=
  simulate_gdd_negative_horizon_empty _ 5 10 [100] (-1) 30 (by norm_num)
    (by simp)

/-- C5 counterexample: a run whose very first fetch fails and a run
that completes normally over empty blocks return the same value to the
Python caller — the returned pair carries no failure indicator that
distinguishes the incomplete run from the completed one. -/
theorem simulate_gdd_no_failure_flag_cex :
    simulate_gdd (fun _ _ => none) 0 10 [100] 2 30 =
      Except.ok ⟨[], [(100, none)], [(0, 2)], true⟩
    ∧ simulate_gdd (fun _ _ => some []) 0 10 [100] 2 30 =
      Except.ok ⟨[], [(100, none)], [(0, 2)], false⟩
    ∧ pythonReturn ⟨[], [(100, none)], [(0, 2)], true⟩ =
      pythonReturn ⟨[], [(100, none)], [(0, 2)], false⟩ := by
  refine ⟨?_, ?_, rfl⟩ <;>
    norm_num [simulate_gdd, simLoop, processBlock, List.max?]

/-- C5 amended: when the fetch for the current block raises, the loop
stops at once and returns exactly the records and stage entries
accumulated so far — prior progress is preserved — with the failed
request appended to the fetch trace; but the value returned to the
Python caller carries no explicit failure indicator (the `errored`
field exists only in the instrumented model, and by the
counterexample the Python-visible return can coincide with that of a
completed run). -/
theorem simLoop_fetch_failure_partial
    (fetch : Int → Int → Option (List Obs)) (tbase highest : ℚ)
    (endLimit blockDays : Int) (fuel : Nat) (cum : ℚ) (cur : Int)
    (rows : List GDDRecord) (stages : StageMap) (fs : List (Int × Int))
    (hcum : cum < highest) (hcur : cur ≤ endLimit)
    (hfail : fetch cur (min (cur + (blockDays - 1)) endLimit) = none) :
    simLoop fetch tbase highest endLimit blockDays (fuel + 1)
        cum cur rows stages fs =
      ⟨rows, stages, fs ++ [(cur, min (cur + (blockDays - 1)) endLimit)],
        true⟩ := by
  rw [simLoop, if_pos ⟨hcum, hcur⟩]
  simp only [hfail]

theorem simLoop_fetch_failure_partial_witness :
    simLoop (fun _ _ => none) 10 100 50 30 4 15 3
        [⟨0, 30, 20, 15, 15⟩] [(100, none)] [(0, 2)] =
      ⟨[⟨0, 30, 20, 15, 15⟩], [(100, none)], [(0, 2), (3, 32)], true⟩ := by
  have h := simLoop_fetch_failure_partial (fun _ _ => none) 10 100 50 30 3 15 3
    [⟨0, 30, 20, 15, 15⟩] [(100, none)] [(0, 2)]
    (by norm_num) (by norm_num) rfl
  norm_num at h
  exact h

/-- C1: in any run of the engine, each configured threshold's stage
entry holds either `none` or the date of the first processed record
whose cumulative GDD reached or exceeded that threshold (so it is set
exactly at the first crossing and never overwritten); the set of
entries is exactly the configured targets, and an already-set entry is
preserved verbatim by every stage update. -/
theorem simulate_gdd_stage_first_crossing
    (fetch : Int → Int → Option (List Obs)) (start_date : Int) (tbase : ℚ)
    (targets : List ℚ) (max_days blockDays : Int) (out : SimOutcome)
    (h : simulate_gdd fetch start_date tbase targets max_days blockDays =
      Except.ok out) :
    out.stage_dates.map Prod.fst = targets
    ∧ (∀ p ∈ out.stage_dates, p.2 = firstCross out.rows p.1)
    ∧ (∀ (cum : ℚ) (d : Int) (stages : StageMap) (thr : ℚ) (v : Int),
        (thr, some v) ∈ stages → (thr, some v) ∈ updateStages cum d stages) := by
  have hout : ∃ highest, targets.max? = some highest ∧
      out = simLoop fetch tbase highest (start_date + max_days) blockDays
        (max_days.toNat + 1) 0 start_date []
        (targets.map fun t => (t, none)) [] := by
    rw [simulate_gdd] at h
    cases hm : targets.max? with
    | none => rw [hm] at h; exact absurd h (by simp)
    | some highest =>
      rw [hm] at h
      exact ⟨highest, rfl, by injection h with h'; exact h'.symm⟩
  obtain ⟨highest, hm, rfl⟩ := hout
  refine ⟨?_, ?_, ?_⟩
  · rw [simLoop_stages_fst, List.map_map]
    simp [Function.comp_def]
  · exact simLoop_stagesInv _ _ _ _ _ _ _ _ _ _ _
      (by intro p hp
          simp only [List.mem_map] at hp
          obtain ⟨t, -, rfl⟩ := hp
          rfl)
  · intro cum d stages thr v hmem
    simp only [updateStages, List.mem_map]
    exact ⟨(thr, some v), hmem, by simp⟩

theorem simulate_gdd_stage_first_crossing_witness :
    (some (0 : Int) : Option Int) =
      firstCross [⟨0, 130, 110, 110, 110⟩, ⟨1, 130, 110, 110, 220⟩] 100
    ∧ (none : Option Int) =
      firstCross [⟨0, 130, 110, 110, 110⟩, ⟨1, 130, 110, 110, 220⟩] 300 := by
  have h := simulate_gdd_stage_first_crossing (fun s _ => some [⟨s, 130, 110⟩])
    0 10 [100, 300] 1 1
    ⟨[⟨0, 130, 110, 110, 110⟩, ⟨1, 130, 110, 110, 220⟩],
      [(100, some 0), (300, none)], [(0, 0), (1, 1)], false⟩
    (by norm_num [simulate_gdd, simLoop, processBlock, updateStages,
      daily_gdd, List.max?, max_def]; simp)
  exact ⟨h.2.1 (100, some 0) (List.mem_cons_self _ _),
    h.2.1 (300, none) (List.mem_cons_of_mem _ (List.mem_cons_self _ _))⟩

/-- Elimination for a successful engine run: the outcome is the loop
started from the initial state of lines 101–106. -/
theorem simulate_gdd_ok_elim (fetch : Int → Int → Option (List Obs))
    (start_date : Int) (tbase : ℚ) (targets : List ℚ)
    (max_days blockDays : Int) (out : SimOutcome)
    (h : simulate_gdd fetch start_date tbase targets max_days blockDays =
      Except.ok out) :
    ∃ highest, targets.max? = some highest ∧
      out = simLoop fetch tbase highest (start_date + max_days) blockDays
        (max_days.toNat + 1) 0 start_date []
        (targets.map fun t => (t, none)) [] := by
  rw [simulate_gdd] at h
  cases hm : targets.max? with
  | none => rw [hm] at h; exact absurd h (by simp)
  | some highest =>
    rw [hm] at h
    exact ⟨highest, rfl, by injection h with h'; exact h'.symm⟩

/-- Each processed day appends a record whose date is strictly above
all earlier dates and whose cumulative GDD is at least all earlier
totals; consequently the per-day loop preserves sortedness, and every
record it adds takes its date from the block's observations. -/
theorem processBlock_sorted (tbase highest : ℚ) (obs : List Obs) :
    ∀ s : BlockState,
      (obs.map Obs.date).Pairwise (· < ·) →
      (∀ r ∈ s.rows, ∀ o ∈ obs, r.date < o.date) →
      (s.rows.map GDDRecord.date).Pairwise (· < ·) →
      (s.rows.map GDDRecord.gdd_cum).Pairwise (· ≤ ·) →
      (∀ r ∈ s.rows, r.gdd_cum ≤ s.cum) →
      ((processBlock tbase highest obs s).rows.map GDDRecord.date).Pairwise
        (· < ·)
      ∧ ((processBlock tbase highest obs s).rows.map
          GDDRecord.gdd_cum).Pairwise (· ≤ ·)
      ∧ (∀ r ∈ (processBlock tbase highest obs s).rows,
          r.gdd_cum ≤ (processBlock tbase highest obs s).cum)
      ∧ s.cum ≤ (processBlock tbase highest obs s).cum
      ∧ (∀ r ∈ (processBlock tbase highest obs s).rows,
          r ∈ s.rows ∨ ∃ o ∈ obs, r.date = o.date) := by
  induction obs with
  | nil =>
    intro s _ _ h3 h4 h5
    exact ⟨h3, h4, h5, le_refl _, fun r hr => Or.inl hr⟩
  | cons o rest ih =>
    intro s h1 h2 h3 h4 h5
    rw [List.map_cons, List.pairwise_cons] at h1
    by_cases hb : highest ≤ s.cum
    · rw [processBlock_absorb _ _ _ _ hb]
      exact ⟨h3, h4, h5, le_refl _, fun r hr => Or.inl hr⟩
    · simp only [processBlock, if_neg hb]
      have hg0 : 0 ≤ daily_gdd o.tmax o.tmin tbase := le_max_right _ _
      have hdlt : ∀ r ∈ s.rows, r.date < o.date := fun r hr =>
        h2 r hr o (List.mem_cons_self _ _)
      have h2' : ∀ r ∈ s.rows ++
          [(⟨o.date, o.tmax, o.tmin, daily_gdd o.tmax o.tmin tbase,
            s.cum + daily_gdd o.tmax o.tmin tbase⟩ : GDDRecord)],
          ∀ o' ∈ rest, r.date < o'.date := by
        intro r hr o' ho'
        rcases List.mem_append.mp hr with hrold | hrnew
        · exact h2 r hrold o' (List.mem_cons_of_mem _ ho')
        · have hre : r = (⟨o.date, o.tmax, o.tmin,
              daily_gdd o.tmax o.tmin tbase,
              s.cum + daily_gdd o.tmax o.tmin tbase⟩ : GDDRecord) := by
            simpa using hrnew
          rw [hre]
          exact h1.1 o'.date (List.mem_map_of_mem _ ho')
      have h3' : ((s.rows ++
          [(⟨o.date, o.tmax, o.tmin, daily_gdd o.tmax o.tmin tbase,
            s.cum + daily_gdd o.tmax o.tmin tbase⟩ : GDDRecord)]).map
          GDDRecord.date).Pairwise (· < ·) := by
        rw [List.map_append]
        refine List.pairwise_append.mpr ⟨h3, by simp, ?_⟩
        intro a ha b hbmem
        obtain ⟨ra, hra, rfl⟩ := List.mem_map.mp ha
        simp only [List.map_cons, List.map_nil, List.mem_singleton] at hbmem
        rw [hbmem]
        exact hdlt ra hra
      have h4' : ((s.rows ++
          [(⟨o.date, o.tmax, o.tmin, daily_gdd o.tmax o.tmin tbase,
            s.cum + daily_gdd o.tmax o.tmin tbase⟩ : GDDRecord)]).map
          GDDRecord.gdd_cum).Pairwise (· ≤ ·) := by
        rw [List.map_append]
        refine List.pairwise_append.mpr ⟨h4, by simp, ?_⟩
        intro a ha b hbmem
        obtain ⟨ra, hra, rfl⟩ := List.mem_map.mp ha
        simp only [List.map_cons, List.map_nil, List.mem_singleton] at hbmem
        rw [hbmem]
        show ra.gdd_cum ≤ s.cum + daily_gdd o.tmax o.tmin tbase
        calc ra.gdd_cum ≤ s.cum := h5 ra hra
          _ ≤ s.cum + daily_gdd o.tmax o.tmin tbase := by linarith
      have h5' : ∀ r ∈ s.rows ++
          [(⟨o.date, o.tmax, o.tmin, daily_gdd o.tmax o.tmin tbase,
            s.cum + daily_gdd o.tmax o.tmin tbase⟩ : GDDRecord)],
          r.gdd_cum ≤ s.cum + daily_gdd o.tmax o.tmin tbase := by
        intro r hr
        rcases List.mem_append.mp hr with hrold | hrnew
        · calc r.gdd_cum ≤ s.cum := h5 r hrold
            _ ≤ s.cum + daily_gdd o.tmax o.tmin tbase := by linarith
        · have hre : r = (⟨o.date, o.tmax, o.tmin,
              daily_gdd o.tmax o.tmin tbase,
              s.cum + daily_gdd o.tmax o.tmin tbase⟩ : GDDRecord) := by
            simpa using hrnew
          rw [hre]
      obtain ⟨c1, c2, c3, c4, c5⟩ := ih
        ⟨s.cum + daily_gdd o.tmax o.tmin tbase,
          s.rows ++ [(⟨o.date, o.tmax, o.tmin,
            daily_gdd o.tmax o.tmin tbase,
            s.cum + daily_gdd o.tmax o.tmin tbase⟩ : GDDRecord)],
          updateStages (s.cum + daily_gdd o.tmax o.tmin tbase) o.date
            s.stage_dates⟩
        h1.2 h2' h3' h4' h5'
      refine ⟨c1, c2, c3, le_trans
        (show s.cum ≤ s.cum + daily_gdd o.tmax o.tmin tbase by linarith) c4,
        ?_⟩
      intro r hr
      rcases c5 r hr with hmem | ⟨o', ho', heq⟩
      · rcases List.mem_append.mp hmem with hold | hnew
        · exact Or.inl hold
        · refine Or.inr ⟨o, List.mem_cons_self _ _, ?_⟩
          have hre : r = (⟨o.date, o.tmax, o.tmin,
              daily_gdd o.tmax o.tmin tbase,
              s.cum + daily_gdd o.tmax o.tmin tbase⟩ : GDDRecord) := by
            simpa using hnew
          rw [hre]
      · exact Or.inr ⟨o', List.mem_cons_of_mem _ ho', heq⟩

/-- The fetch loop preserves sortedness and monotonicity when every
returned block is ascending and confined to its requested range and
blocks advance (`blockDays ≥ 1`). -/
theorem simLoop_sorted (fetch : Int → Int → Option (List Obs))
    (tbase highest : ℚ) (endLimit blockDays : Int)
    (hbd : 1 ≤ blockDays)
    (hfetch : ∀ s e obs, fetch s e = some obs →
        (obs.map Obs.date).Pairwise (· < ·) ∧
          ∀ o ∈ obs, s ≤ o.date ∧ o.date ≤ e) :
    ∀ (fuel : Nat) (cum : ℚ) (cur : Int) (rows : List GDDRecord)
      (stages : StageMap) (fs : List (Int × Int)),
      (rows.map GDDRecord.date).Pairwise (· < ·) →
      (rows.map GDDRecord.gdd_cum).Pairwise (· ≤ ·) →
      (∀ r ∈ rows, r.gdd_cum ≤ cum) →
      (∀ r ∈ rows, r.date < cur) →
      ((simLoop fetch tbase highest endLimit blockDays fuel
          cum cur rows stages fs).rows.map GDDRecord.date).Pairwise (· < ·)
      ∧ ((simLoop fetch tbase highest endLimit blockDays fuel
          cum cur rows stages fs).rows.map GDDRecord.gdd_cum).Pairwise
          (· ≤ ·) := by
  intro fuel
  induction fuel with
  | zero =>
    intro cum cur rows stages fs h1 h2 h3 h4
    rw [simLoop]
    by_cases hg : cum < highest ∧ cur ≤ endLimit <;>
      simp only [hg, if_pos, if_neg, if_true, if_false] <;> exact ⟨h1, h2⟩
  | succ fuel ih =>
    intro cum cur rows stages fs h1 h2 h3 h4
    rw [simLoop]
    by_cases hg : cum < highest ∧ cur ≤ endLimit
    · simp only [if_pos hg]
      cases hf : fetch cur (min (cur + (blockDays - 1)) endLimit) with
      | none => exact ⟨h1, h2⟩
      | some obs =>
        obtain ⟨hobs, hrange⟩ := hfetch _ _ _ hf
        have hcur_le : cur ≤ min (cur + (blockDays - 1)) endLimit :=
          le_min (by omega) hg.2
        have hsep : ∀ r ∈ rows, ∀ o ∈ obs, r.date < o.date := fun r hr o ho =>
          lt_of_lt_of_le (h4 r hr) (hrange o ho).1
        obtain ⟨c1, c2, c3, c4, c5⟩ := processBlock_sorted tbase highest obs
          ⟨cum, rows, stages⟩ hobs hsep h1 h2 h3
        refine ih _ _ _ _ _ c1 c2 c3 ?_
        intro r hr
        rcases c5 r hr with hold | ⟨o, ho, heq⟩
        · exact lt_of_lt_of_le (h4 r hold)
            (le_trans hcur_le (by omega))
        · rw [heq]
          exact lt_of_le_of_lt (hrange o ho).2 (lt_add_one _)
    · simp only [if_neg hg]
      exact ⟨h1, h2⟩

/-- C3: for every run whose fetch oracle returns blocks that are
strictly ascending by date and confined to the requested range (so
successive blocks cover disjoint ascending ranges), and whose block
size advances the window (`blockDays ≥ 1`), the produced record
sequence has strictly increasing dates (hence no duplicates) and
non-decreasing cumulative GDD. -/
theorem simulate_gdd_rows_sorted_mono
    (fetch : Int → Int → Option (List Obs)) (start_date : Int) (tbase : ℚ)
    (targets : List ℚ) (max_days blockDays : Int) (out : SimOutcome)
    (hbd : 1 ≤ blockDays)
    (hfetch : ∀ s e obs, fetch s e = some obs →
        (obs.map Obs.date).Pairwise (· < ·) ∧
          ∀ o ∈ obs, s ≤ o.date ∧ o.date ≤ e)
    (h : simulate_gdd fetch start_date tbase targets max_days blockDays =
      Except.ok out) :
    (out.rows.map GDDRecord.date).Pairwise (· < ·)
    ∧ (out.rows.map GDDRecord.gdd_cum).Pairwise (· ≤ ·) := by
  obtain ⟨highest, hm, rfl⟩ :=
    simulate_gdd_ok_elim fetch start_date tbase targets max_days blockDays
      out h
  exact simLoop_sorted fetch tbase highest (start_date + max_days) blockDays
    hbd hfetch _ _ _ _ _ _ (by simp) (by simp) (by simp) (by simp)

theorem simulate_gdd_rows_sorted_mono_witness :
    (([⟨0, 30, 20, 15, 15⟩, ⟨1, 30, 20, 15, 30⟩] : List GDDRecord).map
      GDDRecord.date).Pairwise (· < ·)
    ∧ (([⟨0, 30, 20, 15, 15⟩, ⟨1, 30, 20, 15, 30⟩] : List GDDRecord).map
      GDDRecord.gdd_cum).Pairwise (· ≤ ·) := by
  refine simulate_gdd_rows_sorted_mono
    (fun s e => if s ≤ e then some [⟨s, 30, 20⟩] else some [])
    0 10 [1000] 1 1
    ⟨[⟨0, 30, 20, 15, 15⟩, ⟨1, 30, 20, 15, 30⟩], [(1000, none)],
      [(0, 0), (1, 1)], false⟩
    (by norm_num) ?_ ?_
  · intro s e obs hobs
    simp only [] at hobs
    by_cases hse : s ≤ e
    · rw [if_pos hse] at hobs
      injection hobs with hobs
      subst hobs
      refine ⟨by simp, ?_⟩
      intro o ho
      simp only [List.mem_singleton] at ho
      subst ho
      exact ⟨le_refl _, hse⟩
    · rw [if_neg hse] at hobs
      injection hobs with hobs
      subst hobs
      exact ⟨by simp, by simp⟩
  · norm_num [simulate_gdd, simLoop, processBlock, updateStages, daily_gdd,
      List.max?]

/-- Skipping a run of transient attempts: if attempts `a .. a+m-1` are
all transient and stay below the bound, the loop behaves as if started
at attempt `a+m`, with attempts `a .. a+m-1` prepended to the trace. -/
theorem attemptLoopAux_skip (oracle : Nat → AttemptResult) (maxRetries : Nat) :
    ∀ (m a rem : Nat),
      (∀ i, a ≤ i → i < a + m → transient (oracle i)) →
      a + m ≤ maxRetries → m ≤ rem →
      attemptLoopAux oracle maxRetries a rem =
        ((attemptLoopAux oracle maxRetries (a + m) (rem - m)).1,
          List.range' a m ++
            (attemptLoopAux oracle maxRetries (a + m) (rem - m)).2) := by
  intro m
  induction m with
  | zero =>
    intro a rem _ _ _
    simp [List.range']
  | succ m ih =>
    intro a rem htr hle hrem
    obtain ⟨rem', rfl⟩ : ∃ rem', rem = rem' + 1 := ⟨rem - 1, by omega⟩
    have ha : transient (oracle a) := htr a le_rfl (by omega)
    have haM : a < maxRetries := by omega
    have hih := ih (a + 1) rem'
      (fun i h1 h2 => htr i (by omega) (by omega)) (by omega) (by omega)
    cases hoa : oracle a with
    | ok resp =>
      rw [hoa] at ha
      exact absurd ha (by simp [transient])
    | httpError st =>
      rw [hoa] at ha
      simp only [transient] at ha
      simp only [attemptLoopAux, hoa]
      rw [if_pos ⟨ha.1, ha.2, haM⟩, hih]
      have e1 : a + 1 + m = a + (m + 1) := by omega
      have e2 : rem' - m = rem' + 1 - (m + 1) := by omega
      rw [e1, e2]
      have e3 : List.range' a (m + 1) = a :: List.range' (a + 1) m := rfl
      simp [e3]
    | netError =>
      simp only [attemptLoopAux, hoa]
      rw [if_pos haM, hih]
      have e1 : a + 1 + m = a + (m + 1) := by omega
      have e2 : rem' - m = rem' + 1 - (m + 1) := by omega
      rw [e1, e2]
      have e3 : List.range' a (m + 1) = a :: List.range' (a + 1) m := rfl
      simp [e3]

/-- A successful attempt ends the loop with the parsed body. -/
theorem attemptLoopAux_ok (oracle : Nat → AttemptResult)
    (maxRetries a rem : Nat) (resp : PowerResponse)
    (h : oracle a = .ok resp) :
    attemptLoopAux oracle maxRetries a (rem + 1) = (.ok resp, [a]) := by
  simp [attemptLoopAux, h]

/-- An HTTP error that is not retried (non-5xx, or bound reached) is
re-raised at once. -/
theorem attemptLoopAux_stop_http (oracle : Nat → AttemptResult)
    (maxRetries a rem s : Nat) (h : oracle a = .httpError s)
    (hc : ¬(500 ≤ s ∧ s < 600 ∧ a < maxRetries)) :
    attemptLoopAux oracle maxRetries a (rem + 1) =
      (.error (.http s), [a]) := by
  simp only [attemptLoopAux, h]
  rw [if_neg hc]

/-- A network error on the final attempt is re-raised at once. -/
theorem attemptLoopAux_stop_net (oracle : Nat → AttemptResult)
    (maxRetries a rem : Nat) (h : oracle a = .netError)
    (hc : ¬a < maxRetries) :
    attemptLoopAux oracle maxRetries a (rem + 1) = (.error .net, [a]) := by
  simp only [attemptLoopAux, h]
  rw [if_neg hc]

/-- C6: with maximum attempt bound `N`: transient failures (5xx or
network) on the first `k − 1` attempts followed by success on the
`k`-th (`k ≤ N`) yield the successful response after exactly attempts
`1..k`; transient failures on all `N` attempts re-raise the last
observed transport error after attempts `1..N`; and a non-transient
HTTP status (e.g. 4xx) at attempt `j` is re-raised immediately, with
no attempt made after `j`. -/
theorem fetchWithRetry_spec (oracle : Nat → AttemptResult) (N : Nat) :
    (∀ (k : Nat) (resp : PowerResponse), 1 ≤ k → k ≤ N →
        (∀ i, 1 ≤ i → i < k → transient (oracle i)) →
        oracle k = .ok resp →
        fetchWithRetry oracle N = (.ok resp, List.range' 1 k))
    ∧ ((∀ i, 1 ≤ i → i ≤ N → transient (oracle i)) → 1 ≤ N →
        ∃ e, fetchWithRetry oracle N = (.error e, List.range' 1 N)
          ∧ transientErr (oracle N) = some e)
    ∧ (∀ (j s : Nat), 1 ≤ j → j ≤ N →
        (∀ i, 1 ≤ i → i < j → transient (oracle i)) →
        oracle j = .httpError s → ¬(500 ≤ s ∧ s < 600) →
        fetchWithRetry oracle N = (.error (.http s), List.range' 1 j)) := by
  refine ⟨?_, ?_, ?_⟩
  · intro k resp hk1 hkN htr hok
    obtain ⟨m, rfl⟩ : ∃ m, k = m + 1 := ⟨k - 1, by omega⟩
    rw [fetchWithRetry,
      attemptLoopAux_skip oracle N m 1 N
        (fun i h1 h2 => htr i h1 (by omega)) (by omega) (by omega)]
    obtain ⟨rem', e2⟩ : ∃ rem', N - m = rem' + 1 := ⟨N - m - 1, by omega⟩
    have e1 : 1 + m = m + 1 := by omega
    rw [e1, e2, attemptLoopAux_ok oracle N (m + 1) rem' resp hok,
      List.range'_1_concat, e1]
  · intro htr hN
    obtain ⟨m, rfl⟩ : ∃ m, N = m + 1 := ⟨N - 1, by omega⟩
    have hlast : transient (oracle (m + 1)) := htr (m + 1) (by omega) le_rfl
    rw [fetchWithRetry,
      attemptLoopAux_skip oracle (m + 1) m 1 (m + 1)
        (fun i h1 h2 => htr i h1 (by omega)) (by omega) (by omega)]
    have e1 : 1 + m = m + 1 := by omega
    have e2 : m + 1 - m = 0 + 1 := by omega
    rw [e1, e2]
    cases hoa : oracle (m + 1) with
    | ok resp =>
      rw [hoa] at hlast
      exact absurd hlast (by simp [transient])
    | httpError st =>
      rw [attemptLoopAux_stop_http oracle (m + 1) (m + 1) 0 st hoa
        (fun hand => absurd hand.2.2 (lt_irrefl _))]
      exact ⟨.http st, by rw [List.range'_1_concat, e1], rfl⟩
    | netError =>
      rw [attemptLoopAux_stop_net oracle (m + 1) (m + 1) 0 hoa (lt_irrefl _)]
      exact ⟨.net, by rw [List.range'_1_concat, e1], rfl⟩
  · intro j s hj1 hjN htr hoj hns
    obtain ⟨m, rfl⟩ : ∃ m, j = m + 1 := ⟨j - 1, by omega⟩
    rw [fetchWithRetry,
      attemptLoopAux_skip oracle N m 1 N
        (fun i h1 h2 => htr i h1 (by omega)) (by omega) (by omega)]
    obtain ⟨rem', e2⟩ : ∃ rem', N - m = rem' + 1 := ⟨N - m - 1, by omega⟩
    have e1 : 1 + m = m + 1 := by omega
    rw [e1, e2,
      attemptLoopAux_stop_http oracle N (m + 1) rem' s hoj
        (fun hand => hns ⟨hand.1, hand.2.1⟩),
      List.range'_1_concat, e1]

theorem fetchWithRetry_spec_witness :
    fetchWithRetry (fun i => if i = 1 then .netError else .ok ⟨[], []⟩) 3 =
      (.ok ⟨[], []⟩, [1, 2])
    ∧ fetchWithRetry (fun _ => .netError) 2 = (.error .net, [1, 2])
    ∧ fetchWithRetry (fun _ => .httpError 404) 3 =
      (.error (.http 404), [1]) := by
  refine ⟨?_, ?_, ?_⟩
  · have h := (fetchWithRetry_spec
        (fun i => if i = 1 then .netError else .ok ⟨[], []⟩) 3).1 2 ⟨[], []⟩
      (by norm_num) (by norm_num)
      (by intro i h1 h2
          have hi : i = 1 := by omega
          subst hi
          simp [transient])
      (by simp)
    simpa [List.range'] using h
  · obtain ⟨e, h1, h2⟩ := (fetchWithRetry_spec (fun _ => .netError) 2).2.1
      (fun i _ _ => by simp [transient]) (by norm_num)
    rw [transientErr] at h2
    injection h2 with h2
    subst h2
    simpa [List.range'] using h1
  · have h := (fetchWithRetry_spec (fun _ => .httpError 404) 3).2.2 1 404
      (by norm_num) (by norm_num) (fun i h1 h2 => absurd h2 (by omega))
      rfl (by norm_num)
    simpa [List.range'] using h

/-- A key occurring among an association list's keys has a `lookup`
value. -/
theorem lookup_isSome_of_mem_keys (l : List (Nat × ℚ)) (k : Nat)
    (h : k ∈ l.map Prod.fst) : (l.lookup k).isSome := by
  induction l with
  | nil => simp at h
  | cons p rest ih =>
    cases p with
    | mk k' v =>
      rw [List.map_cons, List.mem_cons] at h
      by_cases hk : k = k'
      · subst hk
        simp [List.lookup_cons]
      · rw [List.lookup_cons]
        have hbeq : (k == k') = false := beq_false_of_ne hk
        rw [hbeq]
        exact ih (h.resolve_left hk)

/-- When every listed key has both variables, the row-building loop
succeeds and yields one observation per key, in key order, with the
looked-up values. -/
theorem buildRows_ok (tmaxD tminD : List (Nat × ℚ)) :
    ∀ keys : List Nat,
      (∀ k ∈ keys, (tmaxD.lookup k).isSome ∧ (tminD.lookup k).isSome) →
      ∃ l : List Obs, buildRows tmaxD tminD keys = Except.ok l
        ∧ l.map Obs.date = keys.map Int.ofNat
        ∧ ∀ o ∈ l, tmaxD.lookup o.date.toNat = some o.tmax
            ∧ tminD.lookup o.date.toNat = some o.tmin := by
  intro keys
  induction keys with
  | nil => intro _; exact ⟨[], rfl, rfl, by simp⟩
  | cons k ks ih =>
    intro h
    obtain ⟨mx, hmx⟩ :=
      Option.isSome_iff_exists.mp (h k (List.mem_cons_self _ _)).1
    obtain ⟨mn, hmn⟩ :=
      Option.isSome_iff_exists.mp (h k (List.mem_cons_self _ _)).2
    obtain ⟨l, hl, hmap, hvals⟩ :=
      ih fun k' hk' => h k' (List.mem_cons_of_mem _ hk')
    refine ⟨⟨(k : Int), mx, mn⟩ :: l, ?_, ?_, ?_⟩
    · simp only [buildRows, hmx, hmn, hl]
    · rw [List.map_cons, List.map_cons, hmap]
      rfl
    · intro o ho
      rcases List.mem_cons.mp ho with rfl | ho'
      · exact ⟨hmx, hmn⟩
      · exact hvals o ho'

/-- C7 counterexample: a response with the date key `20250101` under
`T2M_MAX` but no keys at all under `T2M_MIN` makes the client raise
`KeyError` instead of returning the (empty) set of dates present for
both variables. -/
theorem parsePower_missing_tmin_cex :
    parsePower ⟨[(20250101, 30)], []⟩ = Except.error FetchError.keyError
    ∧ (Except.error FetchError.keyError : Except FetchError (List Obs)) ≠
      Except.ok [] :=
  ⟨by decide, by simp⟩

/-- C7 amended: the client produces exactly one observation per
`T2M_MAX` date key, in ascending key order, with the values looked up
in each variable's dictionary — in particular, a response covering any
subset of the requested days is returned without error — but only
provided every `T2M_MAX` key is also present for `T2M_MIN`; a
`T2M_MAX` key missing from `T2M_MIN` raises `KeyError` (see the
counterexample), and keys present only for `T2M_MIN` are ignored. -/
theorem parsePower_subset_ok (resp : PowerResponse)
    (hsub : ∀ k ∈ resp.tmaxD.map Prod.fst, (resp.tminD.lookup k).isSome) :
    ∃ l : List Obs, parsePower resp = Except.ok l
      ∧ l.map Obs.date =
          ((resp.tmaxD.map Prod.fst).insertionSort (· ≤ ·)).map Int.ofNat
      ∧ (l.map Obs.date).Perm ((resp.tmaxD.map Prod.fst).map Int.ofNat)
      ∧ ∀ o ∈ l, resp.tmaxD.lookup o.date.toNat = some o.tmax
          ∧ resp.tminD.lookup o.date.toNat = some o.tmin := by
  have hmem : ∀ k ∈ (resp.tmaxD.map Prod.fst).insertionSort (· ≤ ·),
      (resp.tmaxD.lookup k).isSome ∧ (resp.tminD.lookup k).isSome := by
    intro k hk
    have hk' : k ∈ resp.tmaxD.map Prod.fst :=
      (List.perm_insertionSort _ _).mem_iff.mp hk
    exact ⟨lookup_isSome_of_mem_keys _ _ hk', hsub k hk'⟩
  obtain ⟨l, hl, hmap, hvals⟩ := buildRows_ok resp.tmaxD resp.tminD _ hmem
  refine ⟨l, ?_, hmap, ?_, hvals⟩
  · rw [parsePower]
    exact hl
  · rw [hmap]
    exact (List.perm_insertionSort _ _).map _

theorem parsePower_subset_ok_witness :
    parsePower ⟨[(2, 30), (1, 28)], [(1, 18), (2, 20), (3, 5)]⟩ ≠
      Except.error FetchError.keyError := by
  obtain ⟨l, hl, -, -, -⟩ := parsePower_subset_ok
    ⟨[(2, 30), (1, 28)], [(1, 18), (2, 20), (3, 5)]⟩ (by decide)
  rw [hl]
  simp

/-- C9 counterexample: with the customize box ticked and the
non-numeric targets input `"abc"`, `main` shows the error message of
line 171 but substitutes the default targets and still starts the
simulation run — the engine issues a fetch (network activity), so the
run does start, contradicting the claim. -/
theorem main_nonnumeric_targets_cex :
    chooseTargets true ['a', 'b', 'c'] = ⟨targetsDefault, true⟩
    ∧ mainRunSim (fun _ _ => some []) 0 10 true ['a', 'b', 'c'] 2 30 =
        Except.ok ⟨[], [(100, none), (300, none), (500, none), (1000, none)],
          [(0, 2)], false⟩
    ∧ (⟨[], [(100, none), (300, none), (500, none), (1000, none)],
        [(0, 2)], false⟩ : SimOutcome).fetches ≠ [] := by
  have hpt : parseTargetsInput ['a', 'b', 'c'] = none := by decide
  refine ⟨?_, ?_, by simp⟩
  · simp [chooseTargets, hpt]
  · rw [mainRunSim]
    simp only [chooseTargets, hpt, if_true]
    norm_num [simulate_gdd, simLoop, processBlock, targetsDefault,
      List.max?, max_def]

/-- C9 amended: when the threshold-target input does not parse as
integers, `main` shows an error message and falls back to the default
targets `(100, 300, 500, 1000)`; the simulation run still starts and
proceeds exactly as a run configured with the default targets
(including its network activity). -/
theorem chooseTargets_nonnumeric_defaults (input : List Char)
    (h : parseTargetsInput input = none) :
    chooseTargets true input = ⟨targetsDefault, true⟩
    ∧ ∀ (fetch : Int → Int → Option (List Obs)) (start_date : Int)
        (tbase : ℚ) (max_days blockDays : Int),
        mainRunSim fetch start_date tbase true input max_days blockDays =
          simulate_gdd fetch start_date tbase
            (targetsDefault.map fun n => (n : ℚ)) max_days blockDays := by
  constructor
  · simp [chooseTargets, h]
  · intro fetch start_date tbase max_days blockDays
    rw [mainRunSim]
    simp only [chooseTargets, h, if_true]

theorem chooseTargets_nonnumeric_defaults_witness :
    chooseTargets true ['a', 'b', 'c'] = ⟨targetsDefault, true⟩
    ∧ mainRunSim (fun _ _ => some []) 0 10 true ['a', 'b', 'c'] 2 30 =
        simulate_gdd (fun _ _ => some []) 0 10
          (targetsDefault.map fun n => (n : ℚ)) 2 30 :=
  ⟨(chooseTargets_nonnumeric_defaults ['a', 'b', 'c'] (by decide)).1,
   (chooseTargets_nonnumeric_defaults ['a', 'b', 'c'] (by decide)).2
     (fun _ _ => some []) 0 10 2 30⟩
